import Mathlib

/-!
Shallow embedding of the GFileMux concurrent multipart-upload middleware
(package `GFileMux`, files `handler.go`, `context.go`, `file.go`,
`utils/utils.go`, the validator and options files) together with proofs
about its upload orchestration, context store, content sniffing and
validator pipeline.

Go strings are modelled as Lean `String`, Go `int64` as `Int`, Go errors
as `Option String` / `Except String` carrying the formatted message, Go
maps as association lists in one concrete iteration order, and the
side-effecting collaborators of the orchestrator (opening a multipart
part, sniffing it, the `Storage.Upload` call) as per-header oracle data
recording the outcome each call would produce.
-/

namespace GFileMux

/-- Go error values, modelled by their message string. -/
abbrev GoErr := String

/-- `UploadedFileMetadata` from `file.go`: result of `Storage.Upload`. -/
structure UploadedFileMetadata where
  FolderDestination : String
  Key : String
  Size : Int
deriving Repr, DecidableEq

/-- `File` from `file.go`: an uploaded file with its metadata. -/
structure File where
  FieldName : String
  OriginalName : String
  UploadedFileName : String
  FolderDestination : String
  StorageKey : String
  MimeType : String
  Size : Int
deriving Repr, DecidableEq

/-- `FileValidatorFunc` from the options file. -/
abbrev FileValidatorFunc := File → Option GoErr

/-- Loop body of `ChainValidators`: run the validators in order,
returning the first rejection. -/
def chainRun (file : File) : List FileValidatorFunc → Option GoErr
  | [] => none
  | v :: rest =>
    match v file with
    | some e => some e
    | none => chainRun file rest

/-- `ChainValidators` from the validator file: applies the validators
sequentially, stopping at the first error. -/
def ChainValidators (validators : List FileValidatorFunc) : FileValidatorFunc :=
  fun file => chainRun file validators

/-- Model of Go `strings.ToLower` restricted to ASCII (which is all the
source compares: MIME type strings). -/
def charToLower (c : Char) : Char :=
  if 65 ≤ c.toNat ∧ c.toNat ≤ 90 then Char.ofNat (c.toNat + 32) else c

/-- Model of Go `strings.ToLower`. -/
def stringToLower (s : String) : String :=
  String.mk (s.data.map charToLower)

/-- Model of Go `strings.EqualFold`: equality up to case folding. -/
def stringEqualFold (a b : String) : Bool :=
  stringToLower a == stringToLower b

/-- `ValidateMimeType` from the validator file: accepts when the file's
`MimeType` matches one of `validMimeTypes` via
`strings.EqualFold(strings.ToLower(mimeType), file.MimeType)`;
otherwise rejects naming the offending type. -/
def ValidateMimeType (validMimeTypes : List String) : FileValidatorFunc :=
  fun file =>
    if validMimeTypes.any (fun mimeType => stringEqualFold (stringToLower mimeType) file.MimeType) then
      none
    else
      some ("unsupported MIME type uploaded: " ++ file.MimeType)

/-! ### Result Context Store (`context.go`)

A Go `context.Context` is modelled by the value it holds under `fileKey`:
`Option Files`.  `Files = map[string][]File` is modelled as an
association list (one concrete iteration order, each key at most once). -/

/-- `Files` from `context.go`. -/
abbrev Files := List (String × List File)

/-- Go map assignment `m[k] = append(m[k], fs...)`: append to the entry
for `k`, adding the entry if absent (a missing Go map key reads as the
empty slice). -/
def mapAppend : Files → String → List File → Files
  | [], k, fs => [(k, fs)]
  | (k', old) :: rest, k, fs =>
    if k' = k then (k', old ++ fs) :: rest
    else (k', old) :: mapAppend rest k fs

/-- `addFilesToContext` from `context.go`: merge the provided `files`
into the files already in the context; an entry with an empty slice is
skipped, a non-empty slice is merged under the `FieldName` of its first
file. -/
def addFilesToContext (ctx : Option Files) (files : Files) : Files :=
  files.foldl
    (fun existingFiles fileSlice =>
      match fileSlice.2 with
      | [] => existingFiles
      | f :: _ => mapAppend existingFiles f.FieldName fileSlice.2)
    (ctx.getD [])

/-- `getFilesFromContext` from `context.go`. -/
def getFilesFromContext (ctx : Option Files) : Files :=
  ctx.getD []

/-- `GetUploadedFilesFromContext` from `context.go` (the request is
modelled by its context value). -/
def GetUploadedFilesFromContext (ctx : Option Files) : Except GoErr Files :=
  let files := getFilesFromContext ctx
  if files.length = 0 then
    Except.error "no files were uploaded in the request"
  else
    Except.ok files

/-- `GetFilesByFieldFromContext` from `context.go`: note the emptiness
check is on the whole mapping, and `files[key]` is the Go map read whose
zero value is the nil slice. -/
def GetFilesByFieldFromContext (ctx : Option Files) (key : String) : Except GoErr (List File) :=
  let files := getFilesFromContext ctx
  if files.length = 0 then
    Except.error "no files found for the specified field key"
  else
    Except.ok ((files.lookup key).getD [])

/-! ### Content sniffing (`utils/utils.go`)

A Go `io.ReadSeeker` is modelled as a byte list plus a read position,
with injectable `Seek`/`Read` failures (a deterministic in-memory or
file-backed source never changes its answers between the calls of one
sniff).  `http.DetectContentType` is Go standard library code, outside
this repository: it is a pure function of the (at most 512) bytes it is
given, so it enters the model as a parameter `detect`. -/

/-- A seekable byte source. -/
structure ReadSeeker where
  data : List Nat
  pos : Nat
  seekErr : Option GoErr
  readErr : Option GoErr
deriving Repr, DecidableEq

/-- `f.Seek(0, io.SeekStart)`. -/
def seekStart (f : ReadSeeker) : Except GoErr ReadSeeker :=
  match f.seekErr with
  | some e => Except.error e
  | none => Except.ok { f with pos := 0 }

/-- `f.Read(buffer)` with a 512-byte buffer: reads up to 512 bytes from
the current position; at end of data this returns zero bytes (Go's
`io.EOF`, which the source tolerates); a non-EOF failure is the
injected `readErr`. -/
def read512 (f : ReadSeeker) : Except GoErr (List Nat × ReadSeeker) :=
  match f.readErr with
  | some e => Except.error e
  | none =>
    let chunk := (f.data.drop f.pos).take 512
    Except.ok (chunk, { f with pos := f.pos + chunk.length })

/-- The characters before the first `;` (helper for `stripCharset`). -/
def takeUntilSemicolon : List Char → List Char
  | [] => []
  | c :: rest => if c == ';' then [] else c :: takeUntilSemicolon rest

/-- The charset-stripping step of `FetchContentType`:
`strings.Split(contentType, ";")` keeps only the first part when the
split produced more than one, i.e. exactly when a `;` occurs. -/
def stripCharset (contentType : String) : String :=
  if contentType.data.contains ';' then String.mk (takeUntilSemicolon contentType.data)
  else contentType

/-- `FetchContentType` from `utils/utils.go`: seek to the start, read up
to 512 bytes, detect the content type, seek back to the start, strip any
charset suffix.  Returns the MIME type together with the source's final
state. -/
def FetchContentType (detect : List Nat → String) (f : ReadSeeker) :
    Except GoErr (String × ReadSeeker) :=
  match seekStart f with
  | Except.error e => Except.error e
  | Except.ok f1 =>
    match read512 f1 with
    | Except.error e => Except.error e
    | Except.ok (buffer, f2) =>
      let contentType := detect buffer
      match seekStart f2 with
      | Except.error e => Except.error e
      | Except.ok f3 => Except.ok (stripCharset contentType, f3)

/-! ### The upload orchestrator (`handler.go`)

Each multipart file header carries, as oracle data, the outcome of the
three side-effecting calls made on it: `header.Open()`, the sniff of the
opened part, and `storage.Upload`.  The `Storage.Upload` oracle is keyed
by the header because each header is uploaded at most once per request. -/

/-- A `*multipart.FileHeader` together with the outcomes of the calls
the worker performs on it. -/
structure FileHeader where
  Filename : String
  Size : Int
  openErr : Option GoErr
  sniffErr : Option GoErr
  sniffedMime : String
  uploadResult : Except GoErr UploadedFileMetadata
deriving Repr

/-- The configured `GFileMux` handler (`handler.go`): the fields the
`Upload` middleware reads.  The error handler itself only forwards the
error into the response, so the model keeps the error value instead. -/
structure Env where
  maxSize : Int
  ignoreNonExistentKeys : Bool
  fileValidator : FileValidatorFunc
  fileNameGenerator : String → String

/-- The `fileData` literal built by the worker before the storage call
(`FolderDestination` and `StorageKey` are still zero-valued). -/
def mkFileData (env : Env) (key : String) (h : FileHeader) : File :=
  { FieldName := key
    OriginalName := h.Filename
    UploadedFileName := env.fileNameGenerator h.Filename
    FolderDestination := ""
    StorageKey := ""
    MimeType := h.sniffedMime
    Size := h.Size }

/-- What one worker goroutine did: its returned error (`none` means the
closure returned `nil`), the value of `uploadedFiles[key]` after it ran
(`none` when the entry was never assigned), how many `storage.Upload`
calls it made, and the cancellation state of the context each of those
calls received. -/
structure WorkerResult where
  err : Option GoErr
  assigned : Option (List File)
  storageCalls : Nat
  ctxSeen : List Bool
deriving Repr

/-- The worker's loop over `fileHeaders`: open, name, sniff, validate,
upload, merge metadata, append — stopping at the first error but keeping
the files already appended.  `cancelled` is the state of the context the
worker passes to `storage.Upload`. -/
def processHeaders (env : Env) (key : String) (cancelled : Bool) :
    List FileHeader → (Option GoErr × List File × Nat × List Bool)
  | [] => (none, [], 0, [])
  | h :: rest =>
    match h.openErr with
    | some e => (some ("could not open file for key (" ++ key ++ "): " ++ e), [], 0, [])
    | none =>
      match h.sniffErr with
      | some e => (some (key ++ " has an invalid MIME type: " ++ e), [], 0, [])
      | none =>
        let fileData := mkFileData env key h
        match env.fileValidator fileData with
        | some e => (some ("validation failed for (" ++ key ++ "): " ++ e), [], 0, [])
        | none =>
          match h.uploadResult with
          | Except.error e =>
            (some ("could not upload file to storage (" ++ key ++ "): " ++ e), [], 1, [cancelled])
          | Except.ok metadata =>
            let fileData := { fileData with
              Size := metadata.Size
              FolderDestination := metadata.FolderDestination
              StorageKey := metadata.Key }
            let r := processHeaders env key cancelled rest
            (r.1, fileData :: r.2.1, r.2.2.1 + 1, cancelled :: r.2.2.2)

/-- The closure passed to `wg.Go` for one `key` (`handler.go`): look the
key up in the parsed form; a missing key either returns `nil` (ignore
flag set) or the field-specific error, in both cases without assigning
`uploadedFiles[key]`; a present key assigns the entry and runs the
per-header loop. -/
def processKey (env : Env) (form : List (String × List FileHeader))
    (key : String) (cancelled : Bool) : WorkerResult :=
  match form.lookup key with
  | none =>
    if env.ignoreNonExistentKeys then
      { err := none, assigned := none, storageCalls := 0, ctxSeen := [] }
    else
      { err := some ("files could not be found in key (" ++ key ++ ") from the HTTP request")
        assigned := none, storageCalls := 0, ctxSeen := [] }
  | some fileHeaders =>
    let r := processHeaders env key cancelled fileHeaders
    { err := r.1, assigned := some r.2.1, storageCalls := r.2.2.1, ctxSeen := r.2.2.2 }

/-- An incoming request: the raw body length, the payload's own parse
failure if it has one — as the number of body bytes the parser consumes
before detecting it, paired with its error (e.g. a missing boundary
param is detected after 0 bytes) — and the multipart form the payload
parses to when it is well formed. -/
structure Request where
  bodySize : Int
  malformed : Option (Int × GoErr)
  form : List (String × List FileHeader)

/-- `r.ParseMultipartForm` under `http.MaxBytesReader(w, r.Body,
maxSize)`.  `MaxBytesReader` only trips when the parser actually reads
past the limit, so a payload whose own parse failure manifests within
the byte budget surfaces that failure; the standard library's "request
body too large" error (surfaced through the multipart reader) appears
only when parsing needs bytes beyond the budget — because the
malformation lies past it, or because a well-formed body is longer than
`maxSize`. -/
def parseMultipartForm (maxSize : Int) (r : Request) :
    Except GoErr (List (String × List FileHeader)) :=
  match r.malformed with
  | some (n, e) =>
    if n ≤ maxSize then Except.error e
    else Except.error "multipart: NextPart: http: request body too large"
  | none =>
    if maxSize < r.bodySize then
      Except.error "multipart: NextPart: http: request body too large"
    else Except.ok r.form

/-- Whether `pat` occurs at the head of `s` (helper for the model of
Go `strings.Contains`). -/
def listStartsWith : List Char → List Char → Bool
  | _, [] => true
  | [], _ :: _ => false
  | a :: as, b :: bs => a == b && listStartsWith as bs

/-- Whether `pat` occurs somewhere in `s`. -/
def listContainsSub : List Char → List Char → Bool
  | [], pat => listStartsWith [] pat
  | a :: rest, pat => listStartsWith (a :: rest) pat || listContainsSub rest pat

/-- Model of Go `strings.Contains`. -/
def stringContains (s pat : String) : Bool :=
  listContainsSub s.data pat.data

/-- `errgroup.Group.Wait`: the first non-nil error returned by a
goroutine, in completion order. -/
def waitError (results : List WorkerResult) : Option GoErr :=
  results.findSome? (·.err)

/-- What the middleware did with the response: either the upload error
handler was invoked (exactly once, with this error) and the next handler
was never called, or the next handler was called with this context
value.  `addFilesToContext` runs only on the second path. -/
inductive Outcome where
  | handledError (e : GoErr)
  | next (ctx : Option Files)
deriving Repr

/-- A whole run of the middleware: the response outcome, the total
number of `storage.Upload` calls across all workers (in `keys` order),
and the cancellation state each such call observed. -/
structure UploadRun where
  outcome : Outcome
  storageCalls : Nat
  ctxSeen : List Bool
deriving Repr

/-- `Upload` from `handler.go`.  `order` is the chronological completion
order of the worker goroutines (any permutation of `keys` can occur);
`initCtx` is the request context's files value when the middleware
starts.  The group is a plain `errgroup.Group` (`var wg errgroup.Group`)
and `cancel` only runs via `defer` after `Wait` returns, so every worker
— and every `storage.Upload` call — receives the never-cancelled child
of the request context: `cancelled = false` throughout. -/
def Upload (env : Env) (keys : List String) (r : Request)
    (initCtx : Option Files) (order : List String) : UploadRun :=
  match parseMultipartForm env.maxSize r with
  | Except.error e =>
    if stringContains e "request body too large" then
      { outcome := Outcome.handledError
          ("file size exceeded the limit of " ++ toString env.maxSize ++ " bytes")
        storageCalls := 0, ctxSeen := [] }
    else
      { outcome := Outcome.handledError e, storageCalls := 0, ctxSeen := [] }
  | Except.ok form =>
    let worker := fun k => processKey env form k false
    let results := keys.map worker
    let calls := (results.map (·.storageCalls)).sum
    let seen := (results.map (·.ctxSeen)).flatten
    match waitError (order.map worker) with
    | some e =>
      { outcome := Outcome.handledError e, storageCalls := calls, ctxSeen := seen }
    | none =>
      let uploadedFiles : Files :=
        keys.filterMap (fun k => ((worker k).assigned).map (fun fs => (k, fs)))
      { outcome := Outcome.next (some (addFilesToContext initCtx uploadedFiles))
        storageCalls := calls, ctxSeen := seen }

/-! ### Derived notions and concrete sample inputs used by the proofs -/

/-- All three side-effecting calls on this header succeed and the
validator accepts the file data built for it. -/
def headerOk (env : Env) (key : String) (h : FileHeader) : Prop :=
  h.openErr = none ∧ h.sniffErr = none ∧
  env.fileValidator (mkFileData env key h) = none ∧
  ∃ metadata, h.uploadResult = Except.ok metadata

/-- The `File` record the worker appends for a header whose storage call
succeeded: the pre-upload file data with the storage-returned size,
folder destination and key merged in. -/
def expectedFile (env : Env) (key : String) (h : FileHeader) : File :=
  match h.uploadResult with
  | Except.ok metadata =>
    { mkFileData env key h with
      Size := metadata.Size
      FolderDestination := metadata.FolderDestination
      StorageKey := metadata.Key }
  | Except.error _ => mkFileData env key h

/-- A header whose open, sniff and storage calls all succeed. -/
def goodHeader : FileHeader :=
  { Filename := "testfile.txt", Size := 19, openErr := none, sniffErr := none
    sniffedMime := "text/plain"
    uploadResult := Except.ok { FolderDestination := "bkt", Key := "k1", Size := 12345 } }

/-- A handler configuration with the default (accept-all) validator, an
identity name generator and the ignore-missing-keys flag off. -/
def envA : Env :=
  { maxSize := 32, ignoreNonExistentKeys := false
    fileValidator := fun _ => none, fileNameGenerator := fun s => s }

/-- `envA` with the ignore-missing-keys flag on. -/
def envIgnore : Env :=
  { envA with ignoreNonExistentKeys := true }

/-- A concrete uploaded file record. -/
def sampleFile : File :=
  { FieldName := "a", OriginalName := "testfile.txt", UploadedFileName := "testfile.txt"
    FolderDestination := "bkt", StorageKey := "k1", MimeType := "text/plain", Size := 12345 }

/-- A content detector returning a type with a charset suffix. -/
def detectTP : List Nat → String :=
  fun _ => "text/plain; charset=utf-8"

/-- A concrete seekable source positioned away from the start. -/
def rs0 : ReadSeeker :=
  { data := [1, 2, 3], pos := 2, seekErr := none, readErr := none }

/-! ### Helper lemmas -/

theorem chainRun_all_pass (file : File) (validators : List FileValidatorFunc)
    (h : ∀ v ∈ validators, v file = none) : chainRun file validators = none := by
  induction validators with
  | nil => rfl
  | cons v rest ih =>
    have hv : v file = none := h v (List.mem_cons_self v rest)
    simp only [chainRun, hv]
    exact ih fun u hu => h u (List.mem_cons_of_mem v hu)

theorem chainRun_first_reject (file : File) (pre : List FileValidatorFunc)
    (v : FileValidatorFunc) (post : List FileValidatorFunc) (e : GoErr)
    (hpre : ∀ u ∈ pre, u file = none) (hv : v file = some e) :
    chainRun file (pre ++ v :: post) = some e := by
  induction pre with
  | nil => simp [chainRun, hv]
  | cons u rest ih =>
    have hu : u file = none := hpre u (List.mem_cons_self u rest)
    simp only [List.cons_append, chainRun, hu]
    exact ih fun w hw => hpre w (List.mem_cons_of_mem u hw)

theorem toNat_charOfNat_of_small {n : Nat} (h : n < 55296) : (Char.ofNat n).toNat = n := by
  rw [Char.ofNat, dif_pos (Or.inl h)]
  rfl

theorem charToLower_idem (c : Char) : charToLower (charToLower c) = charToLower c := by
  unfold charToLower
  by_cases h : 65 ≤ c.toNat ∧ c.toNat ≤ 90
  · rw [if_pos h]
    have ht : (Char.ofNat (c.toNat + 32)).toNat = c.toNat + 32 :=
      toNat_charOfNat_of_small (by omega)
    rw [if_neg (by rw [ht]; omega)]
  · rw [if_neg h, if_neg h]

theorem stringToLower_idem (s : String) :
    stringToLower (stringToLower s) = stringToLower s := by
  simp [stringToLower, List.map_map, Function.comp_def, charToLower_idem]

theorem stringEqualFold_toLower_left (a b : String) :
    stringEqualFold (stringToLower a) b = stringEqualFold a b := by
  simp [stringEqualFold, stringToLower_idem]

theorem mapAppend_lookup_self (m : Files) (k : String) (fs : List File) :
    (mapAppend m k fs).lookup k = some (((m.lookup k).getD []) ++ fs) := by
  induction m with
  | nil => simp [mapAppend]
  | cons p rest ih =>
    obtain ⟨k', old⟩ := p
    by_cases h : k' = k
    · subst h
      simp [mapAppend]
    · have hbeq : (k == k') = false := by
        simp [beq_iff_eq]
        exact fun he => h he.symm
      simp [mapAppend, h, List.lookup_cons, hbeq, ih]

theorem mapAppend_lookup_ne (m : Files) (k k' : String) (fs : List File)
    (h : k' ≠ k) : (mapAppend m k fs).lookup k' = m.lookup k' := by
  have hbeq : (k' == k) = false := by simp [beq_iff_eq, h]
  induction m with
  | nil => simp [mapAppend, hbeq, h]
  | cons p rest ih =>
    obtain ⟨k'', old⟩ := p
    by_cases hk : k'' = k
    · subst hk
      simp [mapAppend, List.lookup_cons, hbeq]
    · simp [mapAppend, hk, List.lookup_cons, ih]

theorem expectedFile_fieldName (env : Env) (key : String) (h : FileHeader) :
    (expectedFile env key h).FieldName = key := by
  unfold expectedFile
  cases h.uploadResult <;> rfl

theorem processHeaders_all_ok (env : Env) (key : String) (cancelled : Bool)
    (hs : List FileHeader) (hok : ∀ h ∈ hs, headerOk env key h) :
    processHeaders env key cancelled hs =
      (none, hs.map (expectedFile env key), hs.length, List.replicate hs.length cancelled) := by
  induction hs with
  | nil => rfl
  | cons h rest ih =>
    obtain ⟨ho, hsn, hval, metadata, hup⟩ := hok h (List.mem_cons_self h rest)
    have ihr := ih fun h' hh => hok h' (List.mem_cons_of_mem h hh)
    simp only [processHeaders, ho, hsn, hval, hup, ihr, List.map_cons, List.length_cons,
      List.replicate_succ]
    simp [expectedFile, hup]

theorem processKey_ok (env : Env) (form : List (String × List FileHeader)) (key : String)
    (hs : List FileHeader) (hlook : form.lookup key = some hs)
    (hok : ∀ h ∈ hs, headerOk env key h) :
    processKey env form key false =
      { err := none, assigned := some (hs.map (expectedFile env key))
        storageCalls := hs.length, ctxSeen := List.replicate hs.length false } := by
  simp only [processKey, hlook, processHeaders_all_ok env key false hs hok]

theorem processKey_missing_fail (env : Env) (form : List (String × List FileHeader))
    (key : String) (hlook : form.lookup key = none)
    (hflag : env.ignoreNonExistentKeys = false) :
    processKey env form key false =
      { err := some ("files could not be found in key (" ++ key ++ ") from the HTTP request")
        assigned := none, storageCalls := 0, ctxSeen := [] } := by
  simp only [processKey, hlook, hflag]
  rfl

theorem processKey_missing_ignore (env : Env) (form : List (String × List FileHeader))
    (key : String) (hlook : form.lookup key = none)
    (hflag : env.ignoreNonExistentKeys = true) :
    processKey env form key false =
      { err := none, assigned := none, storageCalls := 0, ctxSeen := [] } := by
  simp only [processKey, hlook, hflag]
  rfl

theorem waitError_eq_none_iff (results : List WorkerResult) :
    waitError results = none ↔ ∀ r ∈ results, r.err = none := by
  simp [waitError, List.findSome?_eq_none_iff]

theorem waitError_unique (results : List WorkerResult) (e : GoErr)
    (h : ∀ r ∈ results, r.err = none ∨ r.err = some e)
    (hex : ∃ r ∈ results, r.err = some e) :
    waitError results = some e := by
  induction results with
  | nil => simp at hex
  | cons r rest ih =>
    rcases h r (List.mem_cons_self r rest) with hn | hsome
    · have hrest : waitError rest = some e := by
        apply ih
        · exact fun r' hr' => h r' (List.mem_cons_of_mem r hr')
        · rcases hex with ⟨r', hr', he'⟩
          rcases List.mem_cons.mp hr' with rfl | hmem
          · rw [hn] at he'; exact absurd he' (by simp)
          · exact ⟨r', hmem, he'⟩
      simpa [waitError, List.findSome?_cons, hn] using hrest
    · simp [waitError, List.findSome?_cons, hsome]

theorem upload_parse_ok_fail (env : Env) (keys : List String) (r : Request)
    (initCtx : Option Files) (order : List String)
    (form : List (String × List FileHeader)) (e : GoErr)
    (hparse : parseMultipartForm env.maxSize r = Except.ok form)
    (hwait : waitError (order.map (fun k => processKey env form k false)) = some e) :
    (Upload env keys r initCtx order).outcome = Outcome.handledError e := by
  unfold Upload
  rw [hparse]
  simp [hwait]

theorem upload_parse_ok_success (env : Env) (keys : List String) (r : Request)
    (initCtx : Option Files) (order : List String)
    (form : List (String × List FileHeader))
    (hparse : parseMultipartForm env.maxSize r = Except.ok form)
    (hwait : waitError (order.map (fun k => processKey env form k false)) = none) :
    (Upload env keys r initCtx order).outcome =
      Outcome.next (some (addFilesToContext initCtx
        (keys.filterMap fun k =>
          ((processKey env form k false).assigned).map fun fs => (k, fs)))) := by
  unfold Upload
  rw [hparse]
  simp [hwait]

theorem filterMap_assigned (keys : List String) (F : String → Option (List File))
    (g : String → List File) (h : ∀ k ∈ keys, F k = some (g k)) :
    (keys.filterMap fun k => (F k).map fun fs => (k, fs)) =
      keys.map fun k => (k, g k) := by
  induction keys with
  | nil => rfl
  | cons a rest ih =>
    simp [List.filterMap_cons, h a (List.mem_cons_self a rest),
      ih fun k hk => h k (List.mem_cons_of_mem a hk)]

theorem mapAppend_not_mem (m : Files) (k : String) (fs : List File)
    (h : m.lookup k = none) : mapAppend m k fs = m ++ [(k, fs)] := by
  induction m with
  | nil => rfl
  | cons p rest ih =>
    obtain ⟨k', old⟩ := p
    rw [List.lookup_cons] at h
    by_cases hk : k' = k
    · subst hk
      simp at h
    · have hbeq : (k == k') = false := by
        simp [beq_iff_eq]
        exact fun he => hk he.symm
      rw [hbeq] at h
      simp only [mapAppend, hk, if_false]
      rw [ih h]
      simp

theorem addFold_fresh (entries : Files) :
    ∀ acc : Files,
      (∀ p ∈ entries, ∃ f fs', p.2 = f :: fs' ∧ f.FieldName = p.1) →
      (∀ p ∈ entries, acc.lookup p.1 = none) →
      (entries.map Prod.fst).Nodup →
      entries.foldl
        (fun existingFiles fileSlice =>
          match fileSlice.2 with
          | [] => existingFiles
          | f :: _ => mapAppend existingFiles f.FieldName fileSlice.2)
        acc = acc ++ entries := by
  induction entries with
  | nil =>
    intro acc _ _ _
    simp
  | cons p rest ih =>
    intro acc hshape hfresh hnodup
    obtain ⟨f, fs', hp2, hfn⟩ := hshape p (List.mem_cons_self p rest)
    obtain ⟨k, slice⟩ := p
    simp only at hp2 hfn
    subst hp2
    simp only [List.map_cons] at hnodup
    have hknotin : k ∉ rest.map Prod.fst := (List.nodup_cons.mp hnodup).1
    have hstep : mapAppend acc f.FieldName (f :: fs') = acc ++ [(k, f :: fs')] := by
      rw [hfn]
      exact mapAppend_not_mem acc k (f :: fs') (hfresh (k, f :: fs') (List.mem_cons_self _ _))
    rw [List.foldl_cons]
    show List.foldl _ (mapAppend acc f.FieldName (f :: fs')) rest = _
    rw [hstep, ih (acc ++ [(k, f :: fs')])
      (fun q hq => hshape q (List.mem_cons_of_mem _ hq))
      (fun q hq => by
        rw [List.lookup_append, hfresh q (List.mem_cons_of_mem _ hq)]
        have hne : q.1 ≠ k := fun he => hknotin (List.mem_map.mpr ⟨q, hq, he⟩)
        have hbeq : (q.1 == k) = false := by simp [beq_iff_eq, hne]
        simp [List.lookup_cons, hbeq])
      (List.nodup_cons.mp hnodup).2]
    simp

theorem addFilesToContext_fresh (entries : Files)
    (hshape : ∀ p ∈ entries, ∃ f fs', p.2 = f :: fs' ∧ f.FieldName = p.1)
    (hnodup : (entries.map Prod.fst).Nodup) :
    addFilesToContext none entries = entries := by
  have h := addFold_fresh entries [] hshape (by simp) hnodup
  simpa [addFilesToContext] using h

theorem lookup_map_self (keys : List String) (g : String → List File) (k : String)
    (hk : k ∈ keys) : (keys.map fun k' => (k', g k')).lookup k = some (g k) := by
  induction keys with
  | nil => simp at hk
  | cons a rest ih =>
    rcases List.mem_cons.mp hk with rfl | hmem
    · simp
    · by_cases ha : k = a
      · subst ha; simp
      · have hbeq : (k == a) = false := by simp [beq_iff_eq, ha]
        simp [List.lookup_cons, hbeq, ih hmem]

theorem lookup_map_not_mem (keys : List String) (g : String → List File) (k : String)
    (hk : k ∉ keys) : (keys.map fun k' => (k', g k')).lookup k = none := by
  induction keys with
  | nil => rfl
  | cons a rest ih =>
    have ha : k ≠ a := fun he => hk (he ▸ List.mem_cons_self a rest)
    have hbeq : (k == a) = false := by simp [beq_iff_eq, ha]
    simp only [List.map_cons, List.lookup_cons, hbeq]
    exact ih fun hm => hk (List.mem_cons_of_mem a hm)

theorem processHeaders_ctxSeen_all (env : Env) (key : String) (cancelled : Bool)
    (hs : List FileHeader) :
    ∀ b ∈ (processHeaders env key cancelled hs).2.2.2, b = cancelled := by
  induction hs with
  | nil =>
    intro b hb
    simp [processHeaders] at hb
  | cons h rest ih =>
    intro b hb
    simp only [processHeaders] at hb
    cases ho : h.openErr with
    | some e => rw [ho] at hb; simp at hb
    | none =>
      rw [ho] at hb
      cases hsn : h.sniffErr with
      | some e => rw [hsn] at hb; simp at hb
      | none =>
        rw [hsn] at hb
        cases hval : env.fileValidator (mkFileData env key h) with
        | some e => rw [hval] at hb; simp at hb
        | none =>
          rw [hval] at hb
          cases hup : h.uploadResult with
          | error e =>
            rw [hup] at hb
            simp at hb
            exact hb
          | ok metadata =>
            rw [hup] at hb
            simp only [List.mem_cons] at hb
            rcases hb with rfl | hb
            · rfl
            · exact ih b hb

theorem processKey_ctxSeen_all (env : Env) (form : List (String × List FileHeader))
    (key : String) (cancelled : Bool) :
    ∀ b ∈ (processKey env form key cancelled).ctxSeen, b = cancelled := by
  intro b hb
  unfold processKey at hb
  cases hl : form.lookup key with
  | none =>
    rw [hl] at hb
    by_cases hig : env.ignoreNonExistentKeys <;> simp [hig] at hb
  | some fileHeaders =>
    rw [hl] at hb
    simp only at hb
    exact processHeaders_ctxSeen_all env key cancelled fileHeaders b hb

theorem workerSeen_all_false (env : Env) (form : List (String × List FileHeader))
    (keys : List String) :
    ∀ b ∈ ((keys.map fun k => processKey env form k false).map (·.ctxSeen)).flatten,
      b = false := by
  intro b hb
  rw [List.mem_flatten] at hb
  obtain ⟨l, hl, hbl⟩ := hb
  rw [List.mem_map] at hl
  obtain ⟨wr, hwr, rfl⟩ := hl
  rw [List.mem_map] at hwr
  obtain ⟨k, _, rfl⟩ := hwr
  exact processKey_ctxSeen_all env form k false b hbl

theorem filterMap_assigned_except (keys : List String) (k : String)
    (F : String → Option (List File)) (g : String → List File)
    (hk : F k = none) (h : ∀ k' ∈ keys, k' ≠ k → F k' = some (g k')) :
    (keys.filterMap fun k' => (F k').map fun fs => (k', fs)) =
      (keys.filter fun k' => !(k' == k)).map fun k' => (k', g k') := by
  induction keys with
  | nil => rfl
  | cons a rest ih =>
    have ihr := ih fun k' hk' hne => h k' (List.mem_cons_of_mem a hk') hne
    by_cases ha : a = k
    · subst ha
      simp [List.filterMap_cons, hk, List.filter_cons, ihr]
    · have hFa := h a (List.mem_cons_self a rest) ha
      have hbeq : (a == k) = false := by simp [beq_iff_eq, ha]
      simp [List.filterMap_cons, hFa, List.filter_cons, hbeq, ihr]

theorem parseMultipartForm_of_malformed (maxSize : Int) (r : Request) (n : Int) (e : GoErr)
    (h : r.malformed = some (n, e)) :
    parseMultipartForm maxSize r =
      if n ≤ maxSize then Except.error e
      else Except.error "multipart: NextPart: http: request body too large" := by
  unfold parseMultipartForm
  rw [h]

theorem parseMultipartForm_of_wellformed (maxSize : Int) (r : Request)
    (h : r.malformed = none) :
    parseMultipartForm maxSize r =
      if maxSize < r.bodySize then
        Except.error "multipart: NextPart: http: request body too large"
      else Except.ok r.form := by
  unfold parseMultipartForm
  rw [h]

/-! ### The claims -/

/-- Counterexample to C3 as stated: a 100-byte body against a 32-byte
limit whose payload fails parsing within the budget — here a missing
boundary param, which `ParseMultipartForm` detects before reading a
single body byte — is reported with the generic parse error, not the
size-limit error, because `MaxBytesReader` never trips. -/
theorem upload_size_limit_counterexample :
    envA.maxSize < (100 : Int) ∧
    (Upload envA ["a"]
      { bodySize := 100
        malformed := some (0, "no multipart boundary param in Content-Type")
        form := [] }
      none ["a"]).outcome =
        Outcome.handledError "no multipart boundary param in Content-Type" ∧
    "no multipart boundary param in Content-Type" ≠
      "file size exceeded the limit of " ++ toString envA.maxSize ++ " bytes" :=
  ⟨by decide, rfl, by decide⟩

/-- Claim C3 (amended): for every request whose raw body exceeds the
configured maximum size and whose payload does not itself fail parsing
within the byte budget, the middleware reports the distinct size-limit
error naming the configured limit, raised at the parse step before any
worker runs, with no `Storage.Upload` call; when the payload's own
parse failure manifests within the budget, that generic parse error is
reported instead — still with no storage call. -/
theorem upload_size_limit_amended (env : Env) (keys : List String) (r : Request)
    (initCtx : Option Files) (order : List String)
    (hsize : env.maxSize < r.bodySize) :
    ((r.malformed = none ∨ ∃ p, r.malformed = some p ∧ env.maxSize < p.1) →
      Upload env keys r initCtx order =
        { outcome := Outcome.handledError
            ("file size exceeded the limit of " ++ toString env.maxSize ++ " bytes")
          storageCalls := 0, ctxSeen := [] }) ∧
    (∀ (n : Int) (e : GoErr), r.malformed = some (n, e) → n ≤ env.maxSize →
      stringContains e "request body too large" = false →
      Upload env keys r initCtx order =
        { outcome := Outcome.handledError e, storageCalls := 0, ctxSeen := [] }) := by
  constructor
  · intro hwf
    unfold Upload
    rcases hwf with hmal | ⟨p, hmal, hp⟩
    · rw [parseMultipartForm_of_wellformed env.maxSize r hmal, if_pos hsize]
      rfl
    · obtain ⟨n, e⟩ := p
      rw [parseMultipartForm_of_malformed env.maxSize r n e hmal,
        if_neg (by simpa using Int.not_le.mpr hp)]
      rfl
  · intro n e hmal hn hcontains
    unfold Upload
    rw [parseMultipartForm_of_malformed env.maxSize r n e hmal, if_pos hn]
    simp [hcontains]

/-- Witness for C3 (amended): a well-formed 100-byte body against a
32-byte limit yields the size-limit error and zero storage calls. -/
theorem upload_size_limit_amended_witness :
    Upload envA ["a"] { bodySize := 100, malformed := none, form := [] } none ["a"] =
      { outcome := Outcome.handledError "file size exceeded the limit of 32 bytes"
        storageCalls := 0, ctxSeen := [] } :=
  (upload_size_limit_amended envA ["a"]
    { bodySize := 100, malformed := none, form := [] } none ["a"] (by decide)).1
    (Or.inl rfl)

/-- Claim C5 (refuted by the code, evaluated at the failing input): a
context whose mapping holds files only under field "a" makes
`GetFilesByFieldFromContext` for field "b" return an empty success
`ok []` even though "b" was never populated; the whole-mapping reader
does fail when the mapping is empty. -/
theorem getFilesByField_empty_success :
    (getFilesFromContext (some [("a", [sampleFile])])).lookup "b" = none ∧
    GetFilesByFieldFromContext (some [("a", [sampleFile])]) "b" = Except.ok [] ∧
    GetUploadedFilesFromContext (some ([] : Files)) =
      Except.error "no files were uploaded in the request" :=
  ⟨rfl, rfl, rfl⟩

/-- Claim C7: the chained validator runs the validators in order,
returns the first rejection without depending on anything after the
rejecting validator, and accepts whenever all validators accept
(including the empty chain). -/
theorem chainValidators_spec (file : File) :
    (ChainValidators [] file = none) ∧
    (∀ validators : List FileValidatorFunc,
      (∀ v ∈ validators, v file = none) → ChainValidators validators file = none) ∧
    (∀ (pre : List FileValidatorFunc) (v : FileValidatorFunc)
      (post post' : List FileValidatorFunc) (e : GoErr),
      (∀ u ∈ pre, u file = none) → v file = some e →
      ChainValidators (pre ++ v :: post) file = some e ∧
      ChainValidators (pre ++ v :: post) file = ChainValidators (pre ++ v :: post') file) := by
  refine ⟨rfl, ?_, ?_⟩
  · exact fun validators h => chainRun_all_pass file validators h
  · intro pre v post post' e hpre hv
    have h1 := chainRun_first_reject file pre v post e hpre hv
    have h2 := chainRun_first_reject file pre v post' e hpre hv
    exact ⟨h1, h1.trans h2.symm⟩

/-- Witness for C7: with validators [reject, accept], only the
rejection is returned and the accepting tail is irrelevant. -/
theorem chainValidators_spec_witness :
    ChainValidators [fun _ => some "reject", fun _ => none] sampleFile = some "reject" ∧
    ChainValidators [fun _ => some "reject", fun _ => none] sampleFile =
      ChainValidators [fun _ => some "reject"] sampleFile := by
  have h := (chainValidators_spec sampleFile).2.2 [] (fun _ => some "reject")
    [fun _ => none] [] "reject" (fun u hu => absurd hu (List.not_mem_nil u)) rfl
  simpa using h

/-- Claim C8: the MIME allowlist validator accepts exactly when the
file's detected type equals one of the allowed types under
case-insensitive comparison, and otherwise rejects with the error
naming the offending detected type. -/
theorem validateMimeType_spec (validMimeTypes : List String) (file : File) :
    (ValidateMimeType validMimeTypes file = none ↔
      ∃ m ∈ validMimeTypes, stringEqualFold m file.MimeType = true) ∧
    (ValidateMimeType validMimeTypes file = none ∨
      ValidateMimeType validMimeTypes file =
        some ("unsupported MIME type uploaded: " ++ file.MimeType)) := by
  have hfold : (fun mimeType => stringEqualFold (stringToLower mimeType) file.MimeType) =
      fun mimeType => stringEqualFold mimeType file.MimeType :=
    funext fun m => stringEqualFold_toLower_left m file.MimeType
  constructor
  · unfold ValidateMimeType
    rw [hfold]
    by_cases h : (validMimeTypes.any fun m => stringEqualFold m file.MimeType) = true
    · rw [if_pos h]
      exact iff_of_true rfl (List.any_eq_true.mp h)
    · rw [if_neg h]
      refine iff_of_false (by simp) fun hex => h (List.any_eq_true.mpr hex)
  · unfold ValidateMimeType
    rw [hfold]
    by_cases h : (validMimeTypes.any fun m => stringEqualFold m file.MimeType) = true
    · exact Or.inl (by rw [if_pos h])
    · exact Or.inr (by rw [if_neg h])

/-- Claim C9 (refuted by the code): the group is a plain
`errgroup.Group` and `cancel` only runs after `Wait` returns, so a
failing worker never cancels the shared scope: every `storage.Upload`
call of every worker, in every run, observes a non-cancelled context. -/
theorem upload_never_cancels (env : Env) (keys : List String) (r : Request)
    (initCtx : Option Files) (order : List String) :
    ∀ b ∈ (Upload env keys r initCtx order).ctxSeen, b = false := by
  intro b hb
  unfold Upload at hb
  cases hp : parseMultipartForm env.maxSize r with
  | error e =>
    rw [hp] at hb
    by_cases hc : stringContains e "request body too large" <;> simp [hc] at hb
  | ok form =>
    rw [hp] at hb
    simp only at hb
    cases hw : waitError (order.map fun k => processKey env form k false) with
    | some e =>
      rw [hw] at hb
      simp only at hb
      exact workerSeen_all_false env form keys b hb
    | none =>
      rw [hw] at hb
      simp only at hb
      exact workerSeen_all_false env form keys b hb

/-- Witness for C9: in the failing run (field "a" missing with the
ignore flag off, field "b" present and uploaded), the sibling's storage
call went through with a non-cancelled context. -/
theorem upload_never_cancels_witness :
    (false ∈ (Upload envA ["a", "b"]
        { bodySize := 10, malformed := none, form := [("b", [goodHeader])] }
        none ["a", "b"]).ctxSeen) ∧
    (Upload envA ["a", "b"]
        { bodySize := 10, malformed := none, form := [("b", [goodHeader])] }
        none ["a", "b"]).ctxSeen = [false] ∧
    false = false := by
  refine ⟨by decide, rfl, ?_⟩
  exact upload_never_cancels envA ["a", "b"]
    { bodySize := 10, malformed := none, form := [("b", [goodHeader])] }
    none ["a", "b"] false (by decide)

/-- Claim C10: `addFilesToContext` silently drops entries whose slice is
empty; a non-empty slice is merged under the `FieldName` of its first
file (not under the map key it was stored at), appending to — not
overwriting — any files already present under that field name. -/
theorem addFilesToContext_spec :
    (∀ (ctx : Option Files) (pre post : Files) (k : String),
      addFilesToContext ctx (pre ++ (k, ([] : List File)) :: post) =
        addFilesToContext ctx (pre ++ post)) ∧
    (∀ (ctx : Option Files) (k : String) (f : File) (fs : List File),
      (addFilesToContext ctx [(k, f :: fs)]).lookup f.FieldName =
        some ((((getFilesFromContext ctx).lookup f.FieldName).getD []) ++ (f :: fs))) ∧
    (∀ (ctx : Option Files) (k : String) (f : File) (fs : List File),
      k ≠ f.FieldName → (getFilesFromContext ctx).lookup k = none →
      (addFilesToContext ctx [(k, f :: fs)]).lookup k = none) := by
  refine ⟨?_, ?_, ?_⟩
  · intro ctx pre post k
    simp [addFilesToContext, List.foldl_append]
  · intro ctx k f fs
    show (mapAppend (ctx.getD []) f.FieldName (f :: fs)).lookup f.FieldName = _
    exact mapAppend_lookup_self (ctx.getD []) f.FieldName (f :: fs)
  · intro ctx k f fs hne hnone
    show (mapAppend (ctx.getD []) f.FieldName (f :: fs)).lookup k = none
    rw [mapAppend_lookup_ne (ctx.getD []) f.FieldName k (f :: fs) hne]
    exact hnone

/-- Witness for C10: an entry stored under map key "x" whose first file
carries field name "a" lands under "a", not "x". -/
theorem addFilesToContext_spec_witness :
    (addFilesToContext none [("x", [sampleFile])]).lookup "x" = none ∧
    (addFilesToContext none [("x", [sampleFile])]).lookup "a" = some [sampleFile] := by
  constructor
  · exact addFilesToContext_spec.2.2 none "x" sampleFile [] (by decide) rfl
  · have h := addFilesToContext_spec.2.1 none "x" sampleFile []
    simpa using h

/-- Claim C6: on a seekable source, sniffing reads at most 512 bytes
taken from position 0 (regardless of the starting position), returns
the detected type with any charset suffix stripped, leaves the read
position at the start on success, is idempotent, and errs exactly when
an injected seek or non-EOF read failure occurs. -/
theorem fetchContentType_spec (detect : List Nat → String) (f : ReadSeeker) :
    (f.seekErr = none ∧ f.readErr = none →
      FetchContentType detect f =
        Except.ok (stripCharset (detect (f.data.take 512)), { f with pos := 0 })) ∧
    (∀ m f', FetchContentType detect f = Except.ok (m, f') →
      f'.pos = 0 ∧ FetchContentType detect f' = Except.ok (m, f')) ∧
    ((∃ e, FetchContentType detect f = Except.error e) ↔
      f.seekErr ≠ none ∨ f.readErr ≠ none) := by
  obtain ⟨data, pos, seekErr, readErr⟩ := f
  refine ⟨?_, ?_, ?_⟩
  · rintro ⟨hseek, hread⟩
    simp only at hseek hread
    subst hseek
    subst hread
    simp [FetchContentType, seekStart, read512]
  · intro m f' h
    cases seekErr with
    | some e => simp [FetchContentType, seekStart] at h
    | none =>
      cases readErr with
      | some e => simp [FetchContentType, seekStart, read512] at h
      | none =>
        simp [FetchContentType, seekStart, read512] at h
        obtain ⟨hm, hf'⟩ := h
        subst hm
        subst hf'
        constructor
        · rfl
        · simp [FetchContentType, seekStart, read512]
  · cases seekErr with
    | some e => simp [FetchContentType, seekStart]
    | none =>
      cases readErr with
      | some e => simp [FetchContentType, seekStart, read512]
      | none => simp [FetchContentType, seekStart, read512]

/-- Witness for C6: a 3-byte source starting at position 2 sniffs to
"text/plain" (charset stripped) with the position reset to 0, and
sniffing the reset source again gives the same answer. -/
theorem fetchContentType_spec_witness :
    FetchContentType detectTP rs0 =
      Except.ok ("text/plain",
        { data := [1, 2, 3], pos := 0, seekErr := none, readErr := none }) ∧
    FetchContentType detectTP
        { data := [1, 2, 3], pos := 0, seekErr := none, readErr := none } =
      Except.ok ("text/plain",
        { data := [1, 2, 3], pos := 0, seekErr := none, readErr := none }) := by
  have h1 : FetchContentType detectTP rs0 =
      Except.ok ("text/plain",
        { data := [1, 2, 3], pos := 0, seekErr := none, readErr := none }) :=
    ((fetchContentType_spec detectTP rs0).1 ⟨rfl, rfl⟩).trans (by rfl)
  refine ⟨h1, ?_⟩
  exact ((fetchContentType_spec detectTP rs0).2.1 "text/plain"
    { data := [1, 2, 3], pos := 0, seekErr := none, readErr := none } h1).2

/-- Claim C1: whenever any per-field worker errs, the middleware's
response is produced by the upload error handler, invoked exactly once
with precisely the (first, in completion order) error `errgroup.Wait`
returns; the next handler is never called and `addFilesToContext` never
runs, so no uploaded-file results for the request reach the context
readers. -/
theorem upload_failure_atomic (env : Env) (keys : List String) (r : Request)
    (initCtx : Option Files) (order : List String)
    (form : List (String × List FileHeader))
    (hparse : parseMultipartForm env.maxSize r = Except.ok form)
    (hperm : order.Perm keys)
    (hfail : ∃ k ∈ keys, (processKey env form k false).err ≠ none) :
    ∃ e, waitError (order.map fun k => processKey env form k false) = some e ∧
      (Upload env keys r initCtx order).outcome = Outcome.handledError e := by
  cases hw : waitError (order.map fun k => processKey env form k false) with
  | none =>
    exfalso
    rw [waitError_eq_none_iff] at hw
    obtain ⟨k, hk, hne⟩ := hfail
    exact hne (hw _ (List.mem_map_of_mem _ (hperm.mem_iff.mpr hk)))
  | some e =>
    exact ⟨e, rfl, upload_parse_ok_fail env keys r initCtx order form e hparse hw⟩

/-- Witness for C1: field "a" is missing while field "b" succeeds; the
outcome is the handled first error, never the next handler. -/
theorem upload_failure_atomic_witness :
    ∃ e, waitError (["a", "b"].map fun k =>
        processKey envA [("b", [goodHeader])] k false) = some e ∧
      (Upload envA ["a", "b"]
        { bodySize := 10, malformed := none, form := [("b", [goodHeader])] }
        none ["a", "b"]).outcome = Outcome.handledError e :=
  upload_failure_atomic envA ["a", "b"]
    { bodySize := 10, malformed := none, form := [("b", [goodHeader])] }
    none ["a", "b"] [("b", [goodHeader])] rfl (List.Perm.refl _)
    ⟨"a", by decide, by decide⟩

/-- Claim C2: when the body fits the budget, every requested field is
present with at least one file and every open/sniff/validate/store
succeeds, no error is raised and the context mapping holds exactly one
entry per requested field, its records in payload order, each carrying
the storage-returned size, folder destination and key. -/
theorem upload_success_spec (env : Env) (keys : List String) (r : Request)
    (order : List String) (form : List (String × List FileHeader))
    (hs : String → List FileHeader)
    (hparse : parseMultipartForm env.maxSize r = Except.ok form)
    (hperm : order.Perm keys)
    (hnodup : keys.Nodup)
    (hpresent : ∀ k ∈ keys, form.lookup k = some (hs k) ∧ hs k ≠ [])
    (hok : ∀ k ∈ keys, ∀ h ∈ hs k, headerOk env k h) :
    ∃ m : Files, (Upload env keys r none order).outcome = Outcome.next (some m) ∧
      (∀ k ∈ keys, m.lookup k = some ((hs k).map (expectedFile env k))) ∧
      (∀ k, k ∉ keys → m.lookup k = none) := by
  have hworker : ∀ k ∈ keys, processKey env form k false =
      { err := none, assigned := some ((hs k).map (expectedFile env k))
        storageCalls := (hs k).length, ctxSeen := List.replicate (hs k).length false } :=
    fun k hk => processKey_ok env form k (hs k) (hpresent k hk).1 (hok k hk)
  have hwait : waitError (order.map fun k => processKey env form k false) = none := by
    rw [waitError_eq_none_iff]
    intro wr hwr
    rw [List.mem_map] at hwr
    obtain ⟨k, hko, rfl⟩ := hwr
    rw [hworker k (hperm.mem_iff.mp hko)]
  have houtcome := upload_parse_ok_success env keys r none order form hparse hwait
  rw [filterMap_assigned keys _ (fun k => (hs k).map (expectedFile env k))
    (fun k hk => by rw [hworker k hk])] at houtcome
  have hshape : ∀ p ∈ (keys.map fun k => (k, (hs k).map (expectedFile env k))),
      ∃ f fs', p.2 = f :: fs' ∧ f.FieldName = p.1 := by
    intro p hp
    rw [List.mem_map] at hp
    obtain ⟨k, hk, rfl⟩ := hp
    obtain ⟨h0, rest0, hcons⟩ : ∃ h0 rest0, hs k = h0 :: rest0 := by
      cases hhs : hs k with
      | nil => exact absurd hhs (hpresent k hk).2
      | cons a b => exact ⟨a, b, rfl⟩
    exact ⟨expectedFile env k h0, rest0.map (expectedFile env k), by simp [hcons],
      expectedFile_fieldName env k h0⟩
  have hnd : ((keys.map fun k => (k, (hs k).map (expectedFile env k))).map Prod.fst).Nodup := by
    rw [List.map_map]
    simpa [Function.comp_def] using hnodup
  rw [addFilesToContext_fresh _ hshape hnd] at houtcome
  refine ⟨_, houtcome, ?_, ?_⟩
  · intro k hk
    exact lookup_map_self keys _ k hk
  · intro k hk
    exact lookup_map_not_mem keys _ k hk

/-- Witness for C2: one field with one valid file lands in the context
under its field name carrying the storage-returned metadata. -/
theorem upload_success_spec_witness :
    ∃ m : Files,
      (Upload envA ["a"]
        { bodySize := 10, malformed := none, form := [("a", [goodHeader])] }
        none ["a"]).outcome = Outcome.next (some m) ∧
      (∀ k ∈ ["a"], m.lookup k = some [expectedFile envA k goodHeader]) ∧
      (∀ k, k ∉ ["a"] → m.lookup k = none) :=
  upload_success_spec envA ["a"]
    { bodySize := 10, malformed := none, form := [("a", [goodHeader])] }
    ["a"] [("a", [goodHeader])] (fun _ => [goodHeader]) rfl (List.Perm.refl _)
    (by decide)
    (by
      intro k hk
      rw [List.mem_singleton] at hk
      subst hk
      exact ⟨rfl, List.cons_ne_nil _ _⟩)
    (by
      intro k hk h hh
      rw [List.mem_singleton] at hk
      subst hk
      rw [List.mem_singleton] at hh
      subst hh
      exact ⟨rfl, rfl, rfl, ⟨{ FolderDestination := "bkt", Key := "k1", Size := 12345 }, rfl⟩⟩)

/-- Counterexample to C4 as stated: with the ignore flag off and field
"a" absent, the request does fail with the field-specific error, yet
the sibling field "b" still performed one `Storage.Upload` call — not
zero storage calls for the request. -/
theorem upload_missing_key_counterexample :
    envA.ignoreNonExistentKeys = false ∧
    (Upload envA ["a", "b"]
      { bodySize := 10, malformed := none, form := [("b", [goodHeader])] }
      none ["a", "b"]).outcome =
        Outcome.handledError "files could not be found in key (a) from the HTTP request" ∧
    (Upload envA ["a", "b"]
      { bodySize := 10, malformed := none, form := [("b", [goodHeader])] }
      none ["a", "b"]).storageCalls = 1 :=
  ⟨rfl, rfl, rfl⟩

/-- Claim C4 (amended): naming an absent field with the ignore flag off
fails the whole request with the field-specific error (sibling storage
calls may still occur, but no results are exposed); with the flag on,
the absent field contributes no entry to the result mapping while
sibling fields are processed and succeed. -/
theorem upload_missing_key_amended (env : Env) (keys : List String) (r : Request)
    (order : List String) (form : List (String × List FileHeader)) (k : String)
    (hs : String → List FileHeader)
    (hparse : parseMultipartForm env.maxSize r = Except.ok form)
    (hperm : order.Perm keys)
    (hnodup : keys.Nodup)
    (hk : k ∈ keys)
    (habsent : form.lookup k = none)
    (hpresent : ∀ k' ∈ keys, k' ≠ k → form.lookup k' = some (hs k') ∧ hs k' ≠ [])
    (hok : ∀ k' ∈ keys, k' ≠ k → ∀ h ∈ hs k', headerOk env k' h) :
    (env.ignoreNonExistentKeys = false →
      (Upload env keys r none order).outcome =
        Outcome.handledError
          ("files could not be found in key (" ++ k ++ ") from the HTTP request")) ∧
    (env.ignoreNonExistentKeys = true →
      ∃ m : Files, (Upload env keys r none order).outcome = Outcome.next (some m) ∧
        m.lookup k = none ∧
        ∀ k' ∈ keys, k' ≠ k →
          m.lookup k' = some ((hs k').map (expectedFile env k'))) := by
  constructor
  · intro hflag
    apply upload_parse_ok_fail env keys r none order form _ hparse
    apply waitError_unique
    · intro wr hwr
      rw [List.mem_map] at hwr
      obtain ⟨k', hko, rfl⟩ := hwr
      have hkk : k' ∈ keys := hperm.mem_iff.mp hko
      by_cases he : k' = k
      · subst he
        right
        rw [processKey_missing_fail env form k' habsent hflag]
      · left
        rw [processKey_ok env form k' (hs k') (hpresent k' hkk he).1 (hok k' hkk he)]
    · refine ⟨processKey env form k false,
        List.mem_map_of_mem _ (hperm.mem_iff.mpr hk), ?_⟩
      rw [processKey_missing_fail env form k habsent hflag]
  · intro hflag
    have hwait : waitError (order.map fun k' => processKey env form k' false) = none := by
      rw [waitError_eq_none_iff]
      intro wr hwr
      rw [List.mem_map] at hwr
      obtain ⟨k', hko, rfl⟩ := hwr
      have hkk : k' ∈ keys := hperm.mem_iff.mp hko
      by_cases he : k' = k
      · subst he
        rw [processKey_missing_ignore env form k' habsent hflag]
      · rw [processKey_ok env form k' (hs k') (hpresent k' hkk he).1 (hok k' hkk he)]
    have houtcome := upload_parse_ok_success env keys r none order form hparse hwait
    rw [filterMap_assigned_except keys k _ (fun k' => (hs k').map (expectedFile env k'))
      (by rw [processKey_missing_ignore env form k habsent hflag])
      (fun k' hk' hne => by
        rw [processKey_ok env form k' (hs k') (hpresent k' hk' hne).1
          (hok k' hk' hne)])] at houtcome
    have hshape : ∀ p ∈ ((keys.filter fun k' => !(k' == k)).map
        fun k' => (k', (hs k').map (expectedFile env k'))),
        ∃ f fs', p.2 = f :: fs' ∧ f.FieldName = p.1 := by
      intro p hp
      rw [List.mem_map] at hp
      obtain ⟨k', hk', rfl⟩ := hp
      rw [List.mem_filter] at hk'
      have hne : k' ≠ k := by simpa using hk'.2
      obtain ⟨h0, rest0, hcons⟩ : ∃ h0 rest0, hs k' = h0 :: rest0 := by
        cases hhs : hs k' with
        | nil => exact absurd hhs (hpresent k' hk'.1 hne).2
        | cons a b => exact ⟨a, b, rfl⟩
      exact ⟨expectedFile env k' h0, rest0.map (expectedFile env k'), by simp [hcons],
        expectedFile_fieldName env k' h0⟩
    have hnd : (((keys.filter fun k' => !(k' == k)).map
        fun k' => (k', (hs k').map (expectedFile env k'))).map Prod.fst).Nodup := by
      rw [List.map_map]
      simpa [Function.comp_def] using hnodup.filter fun k' => !(k' == k)
    rw [addFilesToContext_fresh _ hshape hnd] at houtcome
    refine ⟨_, houtcome, ?_, ?_⟩
    · apply lookup_map_not_mem
      intro hmem
      rw [List.mem_filter] at hmem
      simp at hmem
    · intro k' hk' hne
      apply lookup_map_self
      rw [List.mem_filter]
      exact ⟨hk', by simpa using hne⟩

/-- Witness for C4 (amended), ignore-flag-on side: the absent field "a"
has no entry while sibling "b" succeeded. -/
theorem upload_missing_key_amended_witness :
    ∃ m : Files,
      (Upload envIgnore ["a", "b"]
        { bodySize := 10, malformed := none, form := [("b", [goodHeader])] }
        none ["a", "b"]).outcome = Outcome.next (some m) ∧
      m.lookup "a" = none ∧
      ∀ k' ∈ ["a", "b"], k' ≠ "a" →
        m.lookup k' = some [expectedFile envIgnore k' goodHeader] :=
  (upload_missing_key_amended envIgnore ["a", "b"]
    { bodySize := 10, malformed := none, form := [("b", [goodHeader])] }
    ["a", "b"] [("b", [goodHeader])] "a" (fun _ => [goodHeader]) rfl
    (List.Perm.refl _) (by decide) (by decide) rfl
    (by
      intro k' hk' hne
      rcases List.mem_cons.mp hk' with rfl | hk''
      · exact absurd rfl hne
      · rw [List.mem_singleton] at hk''
        subst hk''
        exact ⟨rfl, List.cons_ne_nil _ _⟩)
    (by
      intro k' hk' hne h hh
      rcases List.mem_cons.mp hk' with rfl | hk''
      · exact absurd rfl hne
      · rw [List.mem_singleton] at hk''
        subst hk''
        rw [List.mem_singleton] at hh
        subst hh
        exact ⟨rfl, rfl, rfl,
          ⟨{ FolderDestination := "bkt", Key := "k1", Size := 12345 }, rfl⟩⟩)).2 rfl

end GFileMux
